import Mathlib

/-!
Verification of the aggregation core of the e-commerce dashboard
(`dashboard/dashboard.py`): the date filter `main_df` and the four transforms
`create_daily_orders_df`, `create_total_customer_by_city_df`,
`create_product_category_sales_df` and `create_rfm_df`.

Modelling conventions (shallow embedding of the pandas code):
* a DataFrame is a `List Row` in row order; boolean-mask filtering is `List.filter`;
* naive timestamps are seconds on a linear time axis (`Nat`); `Series.dt.date`
  is the day index `ts / 86400`, which is order-isomorphic to calendar dates;
* decimal columns (`price`, `freight_value`, the coordinates) are `Int`,
  understood in fixed minor units (exact arithmetic in place of floats); the
  `mean` aggregation, whose result is a true ratio, is `Rat`-valued;
* columns that can hold missing values relevant to the claims (the group-by
  keys, which pandas `groupby` silently drops when null) are `Option String`;
* `groupby(sort=True)` lists the distinct keys in ascending lexicographic
  order; `sort_values(ascending=False, kind="quicksort")` is the reverse of the
  ascending argsort (pandas `nargsort` reverses the ascending indexer); the
  argsort's tie order is implementation-defined beyond numpy's small-array
  insertion-sort regime, and only tie-order-invariant conclusions, or concrete
  frames small enough for the stable regime, rely on this model's tie order.
-/

namespace Dashboard

/-- One input row of the merged dataset `dashboard/main_data.csv`, restricted to
the columns the core transforms read. -/
structure Row where
  order_id : String
  customer_unique_id : Option String
  customer_city : Option String
  product_id : String
  product_category_name_english : Option String
  price : Int
  freight_value : Int
  geolocation_lat : Int
  geolocation_lng : Int
  order_purchase_timestamp : Nat
deriving DecidableEq

/-- Calendar day of a row's purchase timestamp (`Series.dt.date`), as a day
index on the linear time axis. -/
def pdate (r : Row) : Nat := r.order_purchase_timestamp / 86400

/-- Count of distinct values in a list; pandas `nunique` on a column without
nulls. (On a nullable column pandas drops the nulls first, which is
`numDistinct (l.filterMap id)`.) -/
def numDistinct [DecidableEq α] (l : List α) : Nat := l.dedup.length

/-- Arithmetic mean (pandas `mean` aggregation), exact. -/
def meanRat (l : List Int) : Rat := (l.sum : Rat) / (l.length : Rat)

/-- Lexicographic comparison of char lists by code point: the order pandas uses
on string group keys. -/
def charListLe : List Char → List Char → Bool
  | [], _ => true
  | _ :: _, [] => false
  | a :: as, b :: bs => if a = b then charListLe as bs else decide (a < b)

/-- Lexicographic comparison of strings. -/
def strLeB (a b : String) : Bool := charListLe a.data b.data

/-- Insertion step of insertion sort with a boolean comparator. -/
def sIns (le : α → α → Bool) (a : α) : List α → List α
  | [] => [a]
  | b :: l => if le a b then a :: b :: l else b :: sIns le a l

/-- Insertion sort with a boolean comparator; it is stable (each element is
placed before the first element of the sorted tail it compares `le` to). -/
def sSort (le : α → α → Bool) : List α → List α
  | [] => []
  | a :: l => sIns le a (sSort le l)

/-- Distinct group keys in ascending order: pandas `groupby` with the default
`sort=True` lists the groups by ascending key. -/
def sortKeysAsc (l : List String) : List String := sSort strLeB l.dedup

/-- pandas `sort_values(by=key, ascending=False, kind="quicksort")`: the
descending order is the reverse of the ascending argsort of the values.
numpy's argsort is the stable ascending order on small arrays (introsort runs
insertion sort below 16 elements, which covers every concrete frame evaluated
below); on larger frames only the descending arrangement of the values is
guaranteed, the order within a tie class being implementation-defined, so no
theorem below relies on the tie order of this model except on small concrete
frames. -/
def sortValuesDesc (key : α → Nat) (l : List α) : List α :=
  (sSort (fun a b => decide (key a ≤ key b)) l).reverse

/-- Date filter applied to the loaded dataset:
`df[(df[ts].dt.date >= start_date) & (df[ts].dt.date <= end_date)]`. -/
def main_df (df : List Row) (start_date end_date : Nat) : List Row :=
  df.filter fun r => decide (start_date ≤ pdate r) && decide (pdate r ≤ end_date)

/-- Row of the Daily Orders table. -/
structure DailyRow where
  order_date : Nat
  order_count : Nat
  revenue : Int
deriving DecidableEq

/-- Rows whose purchase date is the day `d`: one resampling bucket. -/
def rowsOnDay (rows : List Row) (d : Nat) : List Row :=
  rows.filter fun r => decide (pdate r = d)

/-- First purchase date of a nonempty frame (0 for the empty frame). -/
def minPDate : List Row → Nat
  | [] => 0
  | r :: rs => ((r :: rs).map pdate).foldl min (pdate r)

/-- Last purchase date of a nonempty frame (0 for the empty frame). -/
def maxPDate : List Row → Nat
  | [] => 0
  | r :: rs => ((r :: rs).map pdate).foldl max (pdate r)

/-- Daily Orders transform: `df.resample(rule="D", on="order_purchase_timestamp")
.agg(order_id nunique, price sum)`. Resampling emits one bucket for every day
from the first to the last purchase date, including days with no rows (their
aggregates are zero); on an empty frame it yields an empty table. -/
def create_daily_orders_df (df : List Row) : List DailyRow :=
  match df with
  | [] => []
  | r :: rs =>
    (List.range' (minPDate (r :: rs)) (maxPDate (r :: rs) - minPDate (r :: rs) + 1)).map
      fun d =>
        { order_date := d,
          order_count := numDistinct ((rowsOnDay (r :: rs) d).map Row.order_id),
          revenue := ((rowsOnDay (r :: rs) d).map Row.price).sum }

/-- Row of the Customer-by-City table. -/
structure CityRow where
  customer_city : String
  geolocation_lat : Rat
  geolocation_lng : Rat
  total_customer : Nat
deriving DecidableEq

/-- The group of rows of one city. -/
def cityGroup (rows : List Row) (c : String) : List Row :=
  rows.filter fun r => decide (r.customer_city = some c)

/-- Customer-by-City transform: `groupby("customer_city").agg(lat mean, lng
mean, customer_unique_id nunique)` then `sort_values("total_customer",
ascending=False)`. Null city keys are dropped by `groupby`; null customer ids
are dropped by `nunique`. -/
def create_total_customer_by_city_df (df : List Row) : List CityRow :=
  sortValuesDesc CityRow.total_customer
    ((sortKeysAsc (df.filterMap Row.customer_city)).map fun c =>
      { customer_city := c,
        geolocation_lat := meanRat ((cityGroup df c).map Row.geolocation_lat),
        geolocation_lng := meanRat ((cityGroup df c).map Row.geolocation_lng),
        total_customer := numDistinct ((cityGroup df c).filterMap Row.customer_unique_id) })

/-- Row of the Product-Category Sales table. -/
structure CategoryRow where
  product_category_name_english : String
  total_product : Nat
  total_order : Nat
  total_price : Int
  total_freight : Int
deriving DecidableEq

/-- The group of rows of one product category. -/
def catGroup (rows : List Row) (c : String) : List Row :=
  rows.filter fun r => decide (r.product_category_name_english = some c)

/-- Product-Category Sales transform: `groupby("product_category_name_english")
.agg(product_id nunique, order_id nunique, price sum, freight_value sum)` then
`sort_values("total_order", ascending=False)`. -/
def create_product_category_sales_df (df : List Row) : List CategoryRow :=
  sortValuesDesc CategoryRow.total_order
    ((sortKeysAsc (df.filterMap Row.product_category_name_english)).map fun c =>
      { product_category_name_english := c,
        total_product := numDistinct ((catGroup df c).map Row.product_id),
        total_order := numDistinct ((catGroup df c).map Row.order_id),
        total_price := ((catGroup df c).map Row.price).sum,
        total_freight := ((catGroup df c).map Row.freight_value).sum })

/-- Row of the RFM table. -/
structure RfmRow where
  customer_unique_id : String
  recency : Int
  frequency : Nat
  monetary : Int
  customer_label_id : Option String
deriving DecidableEq

/-- Reference instant `pd.Timestamp("2018-09-03 09:06:57")` in seconds on the
linear (epoch) time axis: day 17777 at 09:06:57. -/
def latestDateSec : Nat := 1535965617

/-- The group of rows of one customer. -/
def custGroup (rows : List Row) (c : String) : List Row :=
  rows.filter fun r => decide (r.customer_unique_id = some c)

/-- Maximum purchase timestamp of a group (pandas `max` aggregation; groups are
always nonempty, so the 0 default is never the result). -/
def groupMaxTs (g : List Row) : Nat :=
  (g.map Row.order_purchase_timestamp).foldl Nat.max 0

/-- Label column `"C" + pd.Series(np.arange(95420).astype(str))`, aligned on
the positional index of the grouped table: row `i` gets `"C" ++ i` when
`i < 95420` and a missing value otherwise. -/
def addLabelsFrom : Nat → List RfmRow → List RfmRow
  | _, [] => []
  | i, x :: xs =>
    { x with customer_label_id := if i < 95420 then some ("C" ++ Nat.repr i) else none }
      :: addLabelsFrom (i + 1) xs

/-- Grouped stage of the RFM transform: `groupby("customer_unique_id")
.agg(timestamp max, order_id nunique, price sum)`, with recency
`(latest_date - max_ts).dt.days` (floor of the day difference, hence
`Int.fdiv`); the label column is not yet assigned. -/
def rfmBase (df : List Row) : List RfmRow :=
  (sortKeysAsc (df.filterMap Row.customer_unique_id)).map fun c =>
    { customer_unique_id := c,
      recency :=
        Int.fdiv ((latestDateSec : Int) - (groupMaxTs (custGroup df c) : Int)) 86400,
      frequency := numDistinct ((custGroup df c).map Row.order_id),
      monetary := ((custGroup df c).map Row.price).sum,
      customer_label_id := none }

/-- RFM transform: the grouped stage followed by the positional label column. -/
def create_rfm_df (df : List Row) : List RfmRow :=
  addLabelsFrom 0 (rfmBase df)

/-- Distinct values of a list in first-encounter order (used to state the
group-encounter order the spec talks about). -/
def encounterKeys (l : List String) : List String :=
  l.foldl (fun acc a => if a ∈ acc then acc else acc ++ [a]) []

/-! ### Concrete rows for the examples and counterexamples -/

/-- Helper to build a concrete row. -/
def mkRow (oid : String) (cid city : Option String) (pid : String) (cat : Option String)
    (p fv lat lng : Int) (ts : Nat) : Row :=
  { order_id := oid, customer_unique_id := cid, customer_city := city, product_id := pid,
    product_category_name_english := cat, price := p, freight_value := fv,
    geolocation_lat := lat, geolocation_lng := lng, order_purchase_timestamp := ts }

/-- A simple row on day 0. -/
def w1 : Row := mkRow "o1" (some "u1") (some "sp") "p1" (some "toys") 100 10 1 2 0

/-- A single order placed at 2018-08-01 00:00:00 (day 17744 of the epoch),
price 77: the spec's recency example. -/
def rAug : Row := mkRow "o1" (some "x") (some "sp") "p1" (some "toys") 77 0 1 2 (17744 * 86400)

/-- The RFM row produced for `rAug`. -/
def xAug : RfmRow :=
  { customer_unique_id := "x", recency := 33, frequency := 1, monetary := 77,
    customer_label_id := some "C0" }

/-- Customer id of length `j`, so that distinct indices give distinct ids. -/
def cidOf (j : Nat) : String := String.mk (List.replicate j 'a')

/-- A collection with 95421 rows carrying pairwise distinct customer ids: one
more customer than the fixed `np.arange(95420)` label range covers. -/
def rowsBig : List Row :=
  (List.range 95421).map fun j =>
    mkRow "o" (some (cidOf j)) (some "sp") "p" (some "t") 1 0 0 0 0

/-- Two rows of the same order on two different days (day 0 and day 1). -/
def rSplitA : Row := mkRow "o1" (some "u1") (some "sp") "p1" (some "toys") 10 1 0 0 0
/-- Second row of order `o1`, one day later. -/
def rSplitB : Row := mkRow "o1" (some "u1") (some "sp") "p1" (some "toys") 20 1 0 0 86400

/-- A row on day 0 (gap counterexample). -/
def rGapA : Row := mkRow "o1" (some "u1") (some "sp") "p1" (some "toys") 10 1 0 0 0
/-- A row on day 2, leaving day 1 empty. -/
def rGapB : Row := mkRow "o2" (some "u2") (some "sp") "p2" (some "toys") 20 1 0 0 (2 * 86400)

/-- A single row with price 0. -/
def rZero : Row := mkRow "o1" (some "u1") (some "sp") "p1" (some "toys") 0 1 0 0 0

/-- Three rows whose cities are encountered in the order b, a, c, one customer
each, so that all city groups tie on `total_customer`. -/
def rTieB : Row := mkRow "o1" (some "u1") (some "b") "p1" (some "t") 1 0 0 0 0
/-- Tie row of city a. -/
def rTieA : Row := mkRow "o2" (some "u2") (some "a") "p1" (some "t") 1 0 0 0 0
/-- Tie row of city c. -/
def rTieC : Row := mkRow "o3" (some "u3") (some "c") "p1" (some "t") 1 0 0 0 0

/-! ### Basic facts about the sorting helpers -/

theorem perm_sIns (le : α → α → Bool) (a : α) (l : List α) :
    List.Perm (sIns le a l) (a :: l) := by
  induction l with
  | nil => exact List.Perm.refl _
  | cons b t ih =>
    by_cases h : le a b = true
    · simp [sIns, h]
    · simp only [sIns, h, if_neg, Bool.not_eq_true, ite_false]
      exact (ih.cons b).trans (List.Perm.swap a b t)

theorem perm_sSort (le : α → α → Bool) (l : List α) : List.Perm (sSort le l) l := by
  induction l with
  | nil => exact List.Perm.refl _
  | cons a t ih => exact (perm_sIns le a (sSort le t)).trans (ih.cons a)

theorem mem_sSort {le : α → α → Bool} {l : List α} {x : α} : x ∈ sSort le l ↔ x ∈ l :=
  (perm_sSort le l).mem_iff

theorem length_sSort (le : α → α → Bool) (l : List α) : (sSort le l).length = l.length :=
  (perm_sSort le l).length_eq

theorem pairwise_sIns {S : α → α → Prop} {le : α → α → Bool} {a : α} {l : List α}
    (h1 : l.Pairwise S) (h2 : ∀ b ∈ l, S a b) (h3 : ∀ b ∈ l, le a b = false → S b a) :
    (sIns le a l).Pairwise S := by
  induction l with
  | nil => simp [sIns]
  | cons b t ih =>
    rw [List.pairwise_cons] at h1
    by_cases h : le a b = true
    · simp only [sIns, h, ite_true]
      refine List.pairwise_cons.2 ⟨?_, List.pairwise_cons.2 ⟨h1.1, h1.2⟩⟩
      intro c hc
      rcases List.mem_cons.1 hc with rfl | hc
      · exact h2 c (List.mem_cons_self _ _)
      · exact h2 c (List.mem_cons_of_mem _ hc)
    · simp only [sIns, h, ite_false]
      refine List.pairwise_cons.2 ⟨?_, ?_⟩
      · intro c hc
        rcases List.mem_cons.1 ((perm_sIns le a t).mem_iff.1 hc) with hca | hc
        · rw [hca]
          exact h3 b (List.mem_cons_self _ _) (by simpa using h)
        · exact h1.1 c hc
      · exact ih h1.2 (fun c hc => h2 c (List.mem_cons_of_mem _ hc))
          (fun c hc => h3 c (List.mem_cons_of_mem _ hc))

theorem pairwise_sSort {S : α → α → Prop} {le : α → α → Bool} {l : List α}
    (h1 : l.Pairwise S) (h3 : ∀ a ∈ l, ∀ b ∈ l, le a b = false → S b a) :
    (sSort le l).Pairwise S := by
  induction l with
  | nil => exact List.Pairwise.nil
  | cons a t ih =>
    rw [List.pairwise_cons] at h1
    exact pairwise_sIns (ih h1.2 (fun x hx y hy => h3 x (List.mem_cons_of_mem _ hx) y
        (List.mem_cons_of_mem _ hy)))
      (fun b hb => h1.1 b (mem_sSort.1 hb))
      (fun b hb => h3 a (List.mem_cons_self _ _) b (List.mem_cons_of_mem _ (mem_sSort.1 hb)))

theorem sorted_sIns {le : α → α → Bool} {a : α} {l : List α}
    (htot : ∀ x y, le x y = true ∨ le y x = true)
    (htrans : ∀ x y z, le x y = true → le y z = true → le x z = true)
    (hs : l.Pairwise (fun x y => le x y = true)) :
    (sIns le a l).Pairwise (fun x y => le x y = true) := by
  induction l with
  | nil => simp [sIns]
  | cons b t ih =>
    rw [List.pairwise_cons] at hs
    by_cases h : le a b = true
    · simp only [sIns, h, ite_true]
      refine List.pairwise_cons.2 ⟨?_, List.pairwise_cons.2 ⟨hs.1, hs.2⟩⟩
      intro c hc
      rcases List.mem_cons.1 hc with rfl | hc
      · exact h
      · exact htrans a b c h (hs.1 c hc)
    · simp only [sIns, h, ite_false]
      refine List.pairwise_cons.2 ⟨?_, ih hs.2⟩
      intro c hc
      rcases List.mem_cons.1 ((perm_sIns le a t).mem_iff.1 hc) with hca | hc
      · rw [hca]
        exact (htot a b).resolve_left h
      · exact hs.1 c hc

theorem sorted_sSort {le : α → α → Bool} {l : List α}
    (htot : ∀ x y, le x y = true ∨ le y x = true)
    (htrans : ∀ x y z, le x y = true → le y z = true → le x z = true) :
    (sSort le l).Pairwise (fun x y => le x y = true) := by
  induction l with
  | nil => exact List.Pairwise.nil
  | cons a t ih => exact sorted_sIns htot htrans ih

/-! ### The string comparator is total and transitive -/

theorem charListLe_total : ∀ x y : List Char, charListLe x y = true ∨ charListLe y x = true
  | [], _ => Or.inl rfl
  | _ :: _, [] => Or.inr rfl
  | a :: as, b :: bs => by
    by_cases hab : a = b
    · subst hab
      simpa [charListLe] using charListLe_total as bs
    · rcases lt_or_gt_of_ne hab with h | h
      · left; simp [charListLe, hab, h]
      · right
        have hba : b ≠ a := fun e => hab e.symm
        simp [charListLe, hba, h]

theorem charListLe_trans : ∀ x y z : List Char,
    charListLe x y = true → charListLe y z = true → charListLe x z = true
  | [], _, _, _, _ => rfl
  | a :: as, [], _, h, _ => by simp [charListLe] at h
  | a :: as, b :: bs, [], _, h => by simp [charListLe] at h
  | a :: as, b :: bs, c :: cs, h1, h2 => by
    by_cases hab : a = b
    · subst hab
      by_cases hbc : a = c
      · subst hbc
        simp only [charListLe, if_pos rfl] at h1 h2 ⊢
        exact charListLe_trans as bs cs h1 h2
      · simp only [charListLe, if_pos rfl] at h1
        simpa [charListLe, hbc] using h2
    · by_cases hbc : b = c
      · subst hbc
        simpa [charListLe, hab] using h1
      · simp only [charListLe, if_neg hab, decide_eq_true_eq] at h1
        simp only [charListLe, if_neg hbc, decide_eq_true_eq] at h2
        have hac : a < c := lt_trans h1 h2
        simp [charListLe, ne_of_lt hac, hac]

theorem strLeB_total (x y : String) : strLeB x y = true ∨ strLeB y x = true :=
  charListLe_total x.data y.data

theorem strLeB_trans (x y z : String) :
    strLeB x y = true → strLeB y z = true → strLeB x z = true :=
  charListLe_trans x.data y.data z.data

/-! ### Facts about `sortKeysAsc` and `sortValuesDesc` -/

theorem mem_sortKeysAsc {l : List String} {c : String} : c ∈ sortKeysAsc l ↔ c ∈ l := by
  rw [sortKeysAsc, mem_sSort, List.mem_dedup]

theorem nodup_sortKeysAsc (l : List String) : (sortKeysAsc l).Nodup :=
  ((perm_sSort strLeB l.dedup).nodup_iff).2 l.nodup_dedup

theorem length_sortKeysAsc_of_nodup {l : List String} (h : l.Nodup) :
    (sortKeysAsc l).length = l.length := by
  rw [sortKeysAsc, length_sSort, List.dedup_eq_self.2 h]

theorem pairwise_sortKeysAsc (l : List String) :
    (sortKeysAsc l).Pairwise (fun a b => strLeB a b = true ∧ a ≠ b) := by
  have hs : (sortKeysAsc l).Pairwise (fun a b => strLeB a b = true) :=
    sorted_sSort strLeB_total strLeB_trans
  have hn : (sortKeysAsc l).Pairwise (fun a b : String => a ≠ b) := nodup_sortKeysAsc l
  exact hs.and hn

theorem perm_sortValuesDesc (key : α → Nat) (l : List α) :
    List.Perm (sortValuesDesc key l) l :=
  (List.reverse_perm _).trans (perm_sSort _ l)

theorem pairwise_sortValuesDesc {S : α → α → Prop} (key : α → Nat) {l : List α}
    (h1 : l.Pairwise fun a b => key a = key b → S a b) :
    (sortValuesDesc key l).Pairwise fun a b =>
      key b ≤ key a ∧ (key a = key b → S b a) := by
  rw [sortValuesDesc, List.pairwise_reverse]
  have hsorted : (sSort (fun a b => decide (key a ≤ key b)) l).Pairwise
      (fun a b => (decide (key a ≤ key b)) = true) :=
    sorted_sSort (fun x y => by rcases Nat.le_total (key x) (key y) with h | h <;> simp [h])
      (fun x y z h1 h2 => by
        simp only [decide_eq_true_eq] at h1 h2 ⊢
        omega)
  have hstable : (sSort (fun a b => decide (key a ≤ key b)) l).Pairwise
      (fun a b => key a = key b → S a b) := by
    refine pairwise_sSort h1 ?_
    intro a _ b _ hf
    simp only [decide_eq_false_iff_not] at hf
    intro he
    exact absurd (le_of_eq he.symm) hf
  refine (hsorted.and hstable).imp ?_
  intro a b hab
  rcases hab with ⟨hle, hS⟩
  simp only [decide_eq_true_eq] at hle
  exact ⟨hle, fun he => hS he.symm⟩

theorem sorted_sortValuesDesc (key : α → Nat) (l : List α) :
    (sortValuesDesc key l).Pairwise (fun x y => key y ≤ key x) := by
  rw [sortValuesDesc, List.pairwise_reverse]
  refine (sorted_sSort ?_ ?_).imp ?_
  · intro x y
    rcases Nat.le_total (key x) (key y) with h | h <;> simp [h]
  · intro x y z h1 h2
    simp only [decide_eq_true_eq] at h1 h2 ⊢
    omega
  · intro a b h
    exact of_decide_eq_true h

/-! ### Counting distinct values across a partition into groups -/

theorem numDistinct_eq_card [DecidableEq α] (l : List α) :
    numDistinct l = l.toFinset.card := by
  rw [numDistinct, List.card_toFinset]

theorem numDistinct_pos_of_ne_nil [DecidableEq α] {l : List α} (h : l ≠ []) :
    0 < numDistinct l := by
  cases l with
  | nil => exact absurd rfl h
  | cons x t =>
    have hx : x ∈ (x :: t).dedup := List.mem_dedup.2 (List.mem_cons_self _ _)
    exact List.length_pos.2 (List.ne_nil_of_mem hx)

theorem toFinset_filterMap_split [DecidableEq K] [DecidableEq V]
    (k : α → K) (val : α → Option V) (l : List α) (c : K) :
    ((l.filter fun r => decide (k r = c)).filterMap val).toFinset ∪
        ((l.filter fun r => !decide (k r = c)).filterMap val).toFinset
      = (l.filterMap val).toFinset := by
  ext v
  simp only [Finset.mem_union, List.mem_toFinset, List.mem_filterMap, List.mem_filter]
  constructor
  · rintro (⟨r, ⟨hr, _⟩, hv⟩ | ⟨r, ⟨hr, _⟩, hv⟩) <;> exact ⟨r, hr, hv⟩
  · rintro ⟨r, hr, hv⟩
    by_cases h : k r = c
    · exact Or.inl ⟨r, ⟨hr, by simp [h]⟩, hv⟩
    · exact Or.inr ⟨r, ⟨hr, by simp [h]⟩, hv⟩

theorem sum_numDistinct_filterMap [DecidableEq K] [DecidableEq V]
    (k : α → K) (val : α → Option V) :
    ∀ (keys : List K) (l : List α), keys.Nodup → (∀ r ∈ l, k r ∈ keys) →
      (∀ r1 ∈ l, ∀ r2 ∈ l, ∀ v, val r1 = some v → val r2 = some v → k r1 = k r2) →
      (keys.map fun c =>
          numDistinct ((l.filter fun r => decide (k r = c)).filterMap val)).sum
        = numDistinct (l.filterMap val)
  | [], l, _, hcov, _ => by
    cases l with
    | nil => simp [numDistinct]
    | cons r rs => exact absurd (hcov r (List.mem_cons_self _ _)) (List.not_mem_nil _)
  | c :: keys, l, hnd, hcov, hdet => by
    have hc : c ∉ keys := (List.nodup_cons.1 hnd).1
    have htail : (keys.map fun c' =>
        numDistinct ((l.filter fun r => decide (k r = c')).filterMap val)).sum
        = (keys.map fun c' =>
        numDistinct (((l.filter fun r => !decide (k r = c)).filter
          fun r => decide (k r = c')).filterMap val)).sum := by
      refine congrArg List.sum (List.map_congr_left ?_)
      intro c' hc'
      have : (l.filter fun r => !decide (k r = c)).filter (fun r => decide (k r = c'))
          = l.filter fun r => decide (k r = c') := by
        rw [List.filter_filter]
        refine List.filter_congr ?_
        intro r _
        by_cases h : k r = c'
        · have hne : k r ≠ c := fun e => hc (e ▸ h ▸ hc')
          have hcc : ¬c' = c := fun e => hc (e ▸ hc')
          simp [h, hne, hcc]
        · simp [h]
      rw [this]
    have hih : (keys.map fun c' =>
        numDistinct (((l.filter fun r => !decide (k r = c)).filter
          fun r => decide (k r = c')).filterMap val)).sum
        = numDistinct ((l.filter fun r => !decide (k r = c)).filterMap val) := by
      refine sum_numDistinct_filterMap k val keys _ (List.nodup_cons.1 hnd).2 ?_ ?_
      · intro r hr
        have hr1 := List.mem_filter.1 hr
        have := hcov r hr1.1
        rcases List.mem_cons.1 this with he | hmem
        · exact absurd (decide_eq_true he) (by simpa using hr1.2)
        · exact hmem
      · intro r1 hr1 r2 hr2 v h1 h2
        exact hdet r1 (List.mem_filter.1 hr1).1 r2 (List.mem_filter.1 hr2).1 v h1 h2
    have hdisj : Disjoint ((l.filter fun r => decide (k r = c)).filterMap val).toFinset
        ((l.filter fun r => !decide (k r = c)).filterMap val).toFinset := by
      rw [Finset.disjoint_left]
      intro v hv1 hv2
      simp only [List.mem_toFinset, List.mem_filterMap, List.mem_filter] at hv1 hv2
      rcases hv1 with ⟨r1, ⟨hr1, he1⟩, hval1⟩
      rcases hv2 with ⟨r2, ⟨hr2, he2⟩, hval2⟩
      have hk := hdet r1 hr1 r2 hr2 v hval1 hval2
      have he1' : k r1 = c := of_decide_eq_true he1
      have he2' : k r2 ≠ c := by simpa using he2
      exact he2' (hk ▸ he1')
    have hsplit := toFinset_filterMap_split k val l c
    calc (((c :: keys).map fun c' =>
            numDistinct ((l.filter fun r => decide (k r = c')).filterMap val)).sum)
        = numDistinct ((l.filter fun r => decide (k r = c)).filterMap val)
          + (keys.map fun c' =>
            numDistinct ((l.filter fun r => decide (k r = c')).filterMap val)).sum := by
          simp
      _ = numDistinct ((l.filter fun r => decide (k r = c)).filterMap val)
          + numDistinct ((l.filter fun r => !decide (k r = c)).filterMap val) := by
          rw [htail, hih]
      _ = numDistinct (l.filterMap val) := by
          rw [numDistinct_eq_card, numDistinct_eq_card, numDistinct_eq_card,
            ← Finset.card_union_of_disjoint hdisj, hsplit]

theorem sum_map_filter_partition [DecidableEq K] [AddCommMonoid M] (k : α → K) (f : α → M) :
    ∀ (keys : List K) (l : List α), keys.Nodup → (∀ r ∈ l, k r ∈ keys) →
      (keys.map fun c => ((l.filter fun r => decide (k r = c)).map f).sum).sum
        = (l.map f).sum
  | [], l, _, hcov => by
    cases l with
    | nil => simp
    | cons r rs => exact absurd (hcov r (List.mem_cons_self _ _)) (List.not_mem_nil _)
  | c :: keys, l, hnd, hcov => by
    have hc : c ∉ keys := (List.nodup_cons.1 hnd).1
    have htail : (keys.map fun c' =>
        ((l.filter fun r => decide (k r = c')).map f).sum).sum
        = (keys.map fun c' =>
        (((l.filter fun r => !decide (k r = c)).filter fun r => decide (k r = c')).map f).sum).sum := by
      refine congrArg List.sum (List.map_congr_left ?_)
      intro c' hc'
      have : (l.filter fun r => !decide (k r = c)).filter (fun r => decide (k r = c'))
          = l.filter fun r => decide (k r = c') := by
        rw [List.filter_filter]
        refine List.filter_congr ?_
        intro r _
        by_cases h : k r = c'
        · have hne : k r ≠ c := fun e => hc (e ▸ h ▸ hc')
          have hcc : ¬c' = c := fun e => hc (e ▸ hc')
          simp [h, hne, hcc]
        · simp [h]
      rw [this]
    have hih : (keys.map fun c' =>
        (((l.filter fun r => !decide (k r = c)).filter fun r => decide (k r = c')).map f).sum).sum
        = ((l.filter fun r => !decide (k r = c)).map f).sum := by
      refine sum_map_filter_partition k f keys _ (List.nodup_cons.1 hnd).2 ?_
      intro r hr
      have hr1 := List.mem_filter.1 hr
      rcases List.mem_cons.1 (hcov r hr1.1) with he | hmem
      · exact absurd (decide_eq_true he) (by simpa using hr1.2)
      · exact hmem
    have hperm : List.Perm ((l.filter fun r => decide (k r = c))
        ++ (l.filter fun r => !decide (k r = c))) l :=
      List.filter_append_perm _ l
    calc (((c :: keys).map fun c' => ((l.filter fun r => decide (k r = c')).map f).sum).sum)
        = ((l.filter fun r => decide (k r = c)).map f).sum
          + (keys.map fun c' => ((l.filter fun r => decide (k r = c')).map f).sum).sum := by
          simp
      _ = ((l.filter fun r => decide (k r = c)).map f).sum
          + ((l.filter fun r => !decide (k r = c)).map f).sum := by rw [htail, hih]
      _ = (l.map f).sum := by
          rw [← List.sum_append, ← List.map_append]
          exact (hperm.map f).sum_eq

/-! ### Minimum and maximum purchase dates -/

theorem foldl_min_le_init : ∀ (l : List Nat) (a : Nat), l.foldl min a ≤ a
  | [], a => le_refl a
  | b :: t, a => le_trans (foldl_min_le_init t (min a b)) (min_le_left a b)

theorem foldl_min_le_mem : ∀ (l : List Nat) (a b : Nat), b ∈ l → l.foldl min a ≤ b
  | [], _, _, h => absurd h (List.not_mem_nil _)
  | b' :: t, a, b, h => by
    rcases List.mem_cons.1 h with rfl | h
    · exact le_trans (foldl_min_le_init t _) (min_le_right a b)
    · exact foldl_min_le_mem t _ b h

theorem foldl_min_mem : ∀ (l : List Nat) (a : Nat),
    l.foldl min a = a ∨ l.foldl min a ∈ l
  | [], _ => Or.inl rfl
  | b :: t, a => by
    simp only [List.foldl_cons]
    rcases foldl_min_mem t (min a b) with h | h
    · rcases Nat.le_total a b with hab | hab
      · left
        rw [h]
        omega
      · right
        have he : min a b = b := by omega
        rw [h, he]
        exact List.mem_cons_self _ _
    · right
      exact List.mem_cons_of_mem _ h

theorem le_foldl_max_init : ∀ (l : List Nat) (a : Nat), a ≤ l.foldl max a
  | [], a => le_refl a
  | b :: t, a => le_trans (le_max_left a b) (le_foldl_max_init t (max a b))

theorem le_foldl_max_mem : ∀ (l : List Nat) (a b : Nat), b ∈ l → b ≤ l.foldl max a
  | [], _, _, h => absurd h (List.not_mem_nil _)
  | b' :: t, a, b, h => by
    rcases List.mem_cons.1 h with rfl | h
    · exact le_trans (le_max_right a b) (le_foldl_max_init t _)
    · exact le_foldl_max_mem t _ b h

theorem foldl_max_mem : ∀ (l : List Nat) (a : Nat),
    l.foldl max a = a ∨ l.foldl max a ∈ l
  | [], _ => Or.inl rfl
  | b :: t, a => by
    simp only [List.foldl_cons]
    rcases foldl_max_mem t (max a b) with h | h
    · rcases Nat.le_total a b with hab | hab
      · right
        have he : max a b = b := by omega
        rw [h, he]
        exact List.mem_cons_self _ _
      · left
        rw [h]
        omega
    · right
      exact List.mem_cons_of_mem _ h

theorem minPDate_le {rows : List Row} {x : Row} (hx : x ∈ rows) : minPDate rows ≤ pdate x := by
  cases rows with
  | nil => exact absurd hx (List.not_mem_nil _)
  | cons r rs =>
    exact foldl_min_le_mem _ _ _ (List.mem_map.2 ⟨x, hx, rfl⟩)

theorem le_maxPDate {rows : List Row} {x : Row} (hx : x ∈ rows) : pdate x ≤ maxPDate rows := by
  cases rows with
  | nil => exact absurd hx (List.not_mem_nil _)
  | cons r rs =>
    exact le_foldl_max_mem _ _ _ (List.mem_map.2 ⟨x, hx, rfl⟩)

theorem exists_pdate_eq_minPDate {rows : List Row} (h : rows ≠ []) :
    ∃ x ∈ rows, pdate x = minPDate rows := by
  cases rows with
  | nil => exact absurd rfl h
  | cons r rs =>
    rcases foldl_min_mem ((r :: rs).map pdate) (pdate r) with he | hm
    · exact ⟨r, List.mem_cons_self _ _, by rw [minPDate, he]⟩
    · rcases List.mem_map.1 hm with ⟨x, hx, he⟩
      exact ⟨x, hx, by rw [minPDate, he]⟩

theorem exists_pdate_eq_maxPDate {rows : List Row} (h : rows ≠ []) :
    ∃ x ∈ rows, pdate x = maxPDate rows := by
  cases rows with
  | nil => exact absurd rfl h
  | cons r rs =>
    rcases foldl_max_mem ((r :: rs).map pdate) (pdate r) with he | hm
    · exact ⟨r, List.mem_cons_self _ _, by rw [maxPDate, he]⟩
    · rcases List.mem_map.1 hm with ⟨x, hx, he⟩
      exact ⟨x, hx, by rw [maxPDate, he]⟩

theorem minPDate_le_maxPDate {rows : List Row} (h : rows ≠ []) :
    minPDate rows ≤ maxPDate rows := by
  rcases exists_pdate_eq_minPDate h with ⟨x, hx, he⟩
  exact he ▸ le_maxPDate hx

/-! ### Facts about the label column -/

theorem length_addLabelsFrom : ∀ (i : Nat) (l : List RfmRow),
    (addLabelsFrom i l).length = l.length
  | _, [] => rfl
  | i, x :: xs => by simp [addLabelsFrom, length_addLabelsFrom (i + 1) xs]

theorem get_addLabelsFrom : ∀ (i : Nat) (l : List RfmRow) (j : Nat)
    (h1 : j < (addLabelsFrom i l).length) (h2 : j < l.length),
    (addLabelsFrom i l).get ⟨j, h1⟩ =
      { l.get ⟨j, h2⟩ with customer_label_id :=
          if i + j < 95420 then some ("C" ++ Nat.repr (i + j)) else none }
  | i, x :: xs, 0, _, _ => by simp [addLabelsFrom]
  | i, x :: xs, j + 1, h1, h2 => by
    have hij : i + 1 + j = i + (j + 1) := by omega
    have h1' : j < (addLabelsFrom (i + 1) xs).length := by
      simpa [addLabelsFrom] using Nat.lt_of_succ_lt_succ h1
    simp only [addLabelsFrom, List.get_cons_succ]
    rw [get_addLabelsFrom (i + 1) xs j h1' (Nat.lt_of_succ_lt_succ h2), hij]

theorem mem_addLabelsFrom : ∀ {i : Nat} {l : List RfmRow} {x : RfmRow},
    x ∈ addLabelsFrom i l →
    ∃ y ∈ l, x.customer_unique_id = y.customer_unique_id ∧ x.recency = y.recency ∧
      x.frequency = y.frequency ∧ x.monetary = y.monetary
  | _, [], x, h => absurd h (List.not_mem_nil _)
  | i, y :: ys, x, h => by
    rcases List.mem_cons.1 h with he | h
    · exact ⟨y, List.mem_cons_self _ _, by rw [he], by rw [he], by rw [he], by rw [he]⟩
    · rcases mem_addLabelsFrom h with ⟨y', hy', hp⟩
      exact ⟨y', List.mem_cons_of_mem _ hy', hp⟩

theorem map_id_addLabelsFrom : ∀ (i : Nat) (l : List RfmRow),
    (addLabelsFrom i l).map RfmRow.customer_unique_id = l.map RfmRow.customer_unique_id
  | _, [] => rfl
  | i, x :: xs => by simp [addLabelsFrom, map_id_addLabelsFrom (i + 1) xs]

/-! ### Rows dropped because their group key is null -/

theorem filterMap_filter_isSome (key : Row → Option String) (rows : List Row) :
    (rows.filter fun r => (key r).isSome).filterMap key = rows.filterMap key := by
  induction rows with
  | nil => rfl
  | cons r t ih =>
    cases h : key r with
    | none => simp [List.filter_cons, List.filterMap_cons, h, ih]
    | some v => simp [List.filter_cons, List.filterMap_cons, h, ih]

theorem filter_key_filter_isSome (key : Row → Option String) (rows : List Row) (c : String) :
    (rows.filter fun r => (key r).isSome).filter (fun r => decide (key r = some c))
      = rows.filter fun r => decide (key r = some c) := by
  rw [List.filter_filter]
  refine List.filter_congr ?_
  intro r _
  cases h : key r <;> simp [h]

/-! ### The claims -/

/-- C1: for every row collection `R` and dates `s ≤ e`, the date filter returns
exactly the rows of `R` whose purchase date `d` satisfies `s ≤ d ≤ e`: the
result is a subsequence of `R` (relative order preserved), every row of the
result is in range, and every in-range row of `R` is kept with its full
multiplicity (none omitted). -/
theorem main_df_filter_spec (R : List Row) (s e : Nat) (_hse : s ≤ e) :
    (main_df R s e).Sublist R
    ∧ (∀ r ∈ main_df R s e, s ≤ pdate r ∧ pdate r ≤ e)
    ∧ (∀ r : Row, s ≤ pdate r → pdate r ≤ e → (main_df R s e).count r = R.count r) := by
  refine ⟨List.filter_sublist R, ?_, ?_⟩
  · intro r hr
    have h := (List.mem_filter.1 hr).2
    rw [Bool.and_eq_true, decide_eq_true_eq, decide_eq_true_eq] at h
    exact h
  · intro r h1 h2
    rw [main_df, List.count_filter]
    simp [h1, h2]

/-- Witness for C1 at a one-row collection and the range of days 0 to 1. -/
theorem main_df_filter_spec_witness :
    (main_df [w1] 0 1).count w1 = [w1].count w1 :=
  (main_df_filter_spec [w1] 0 1 (by decide)).2.2 w1 (by decide) (by decide)

/-- C9: on the empty filtered collection each of the four transforms returns
the empty table (and, the functions being total, no error is raised). -/
theorem transforms_empty_input :
    create_daily_orders_df [] = []
    ∧ create_total_customer_by_city_df [] = []
    ∧ create_product_category_sales_df [] = []
    ∧ create_rfm_df [] = [] :=
  ⟨rfl, rfl, rfl, rfl⟩

/-- C10: rows whose group key is null are silently dropped: each of the three
group-by transforms gives the same table whether or not the rows with a null
key are removed first, and every key appearing in the output is the non-null
key of some input row. -/
theorem null_group_keys_dropped (rows : List Row) :
    (create_total_customer_by_city_df (rows.filter fun r => r.customer_city.isSome)
        = create_total_customer_by_city_df rows
      ∧ ∀ x ∈ create_total_customer_by_city_df rows,
          some x.customer_city ∈ rows.map Row.customer_city)
    ∧ (create_product_category_sales_df
          (rows.filter fun r => r.product_category_name_english.isSome)
        = create_product_category_sales_df rows
      ∧ ∀ x ∈ create_product_category_sales_df rows,
          some x.product_category_name_english ∈ rows.map Row.product_category_name_english)
    ∧ (create_rfm_df (rows.filter fun r => r.customer_unique_id.isSome)
        = create_rfm_df rows
      ∧ ∀ x ∈ create_rfm_df rows,
          some x.customer_unique_id ∈ rows.map Row.customer_unique_id) := by
  refine ⟨⟨?_, ?_⟩, ⟨?_, ?_⟩, ⟨?_, ?_⟩⟩
  · rw [create_total_customer_by_city_df, create_total_customer_by_city_df,
      filterMap_filter_isSome Row.customer_city rows]
    refine congrArg _ (List.map_congr_left ?_)
    intro c _
    rw [cityGroup, cityGroup, filter_key_filter_isSome Row.customer_city rows c]
  · intro x hx
    rcases List.mem_map.1 ((perm_sortValuesDesc _ _).mem_iff.1 hx) with ⟨c, hc, he⟩
    have hc' : c ∈ rows.filterMap Row.customer_city := mem_sortKeysAsc.1 hc
    rcases List.mem_filterMap.1 hc' with ⟨r, hr, hkey⟩
    have : x.customer_city = c := by rw [← he]
    rw [this]
    exact List.mem_map.2 ⟨r, hr, hkey⟩
  · rw [create_product_category_sales_df, create_product_category_sales_df,
      filterMap_filter_isSome Row.product_category_name_english rows]
    refine congrArg _ (List.map_congr_left ?_)
    intro c _
    rw [catGroup, catGroup, filter_key_filter_isSome Row.product_category_name_english rows c]
  · intro x hx
    rcases List.mem_map.1 ((perm_sortValuesDesc _ _).mem_iff.1 hx) with ⟨c, hc, he⟩
    have hc' : c ∈ rows.filterMap Row.product_category_name_english := mem_sortKeysAsc.1 hc
    rcases List.mem_filterMap.1 hc' with ⟨r, hr, hkey⟩
    have : x.product_category_name_english = c := by rw [← he]
    rw [this]
    exact List.mem_map.2 ⟨r, hr, hkey⟩
  · rw [create_rfm_df, create_rfm_df, rfmBase, rfmBase,
      filterMap_filter_isSome Row.customer_unique_id rows]
    refine congrArg _ (List.map_congr_left ?_)
    intro c _
    rw [custGroup, custGroup, filter_key_filter_isSome Row.customer_unique_id rows c]
  · intro x hx
    rcases mem_addLabelsFrom hx with ⟨y, hy, hid, _, _, _⟩
    rcases List.mem_map.1 hy with ⟨c, hc, he⟩
    have hc' : c ∈ rows.filterMap Row.customer_unique_id := mem_sortKeysAsc.1 hc
    rcases List.mem_filterMap.1 hc' with ⟨r, hr, hkey⟩
    have : x.customer_unique_id = c := by rw [hid, ← he]
    rw [this]
    exact List.mem_map.2 ⟨r, hr, hkey⟩

/-! ### Helper facts for the RFM claims -/

theorem foldl_max_le {l : List Nat} {a B : Nat} (ha : a ≤ B) (h : ∀ b ∈ l, b ≤ B) :
    l.foldl max a ≤ B := by
  induction l generalizing a with
  | nil => exact ha
  | cons b t ih =>
    exact ih (max_le ha (h b (List.mem_cons_self _ _)))
      (fun x hx => h x (List.mem_cons_of_mem _ hx))

theorem groupMaxTs_le {g : List Row} {B : Nat}
    (h : ∀ r ∈ g, r.order_purchase_timestamp ≤ B) : groupMaxTs g ≤ B := by
  refine foldl_max_le (Nat.zero_le B) ?_
  intro b hb
  rcases List.mem_map.1 hb with ⟨r, hr, he⟩
  exact he ▸ h r hr

theorem list_map_id_of {l : List α} {f : α → α} (h : ∀ c ∈ l, f c = c) : l.map f = l := by
  induction l with
  | nil => rfl
  | cons a t ih =>
    rw [List.map_cons, h a (List.mem_cons_self _ _),
      ih (fun c hc => h c (List.mem_cons_of_mem _ hc))]

theorem length_rfmBase (rows : List Row) :
    (rfmBase rows).length = (sortKeysAsc (rows.filterMap Row.customer_unique_id)).length :=
  List.length_map _ _

theorem length_create_rfm_df (rows : List Row) :
    (create_rfm_df rows).length
      = (sortKeysAsc (rows.filterMap Row.customer_unique_id)).length := by
  rw [create_rfm_df, length_addLabelsFrom, length_rfmBase]

theorem cidOf_injective : Function.Injective cidOf := by
  intro a b h
  have h2 := congrArg String.data h
  simpa [cidOf] using congrArg List.length h2

theorem filterMap_id_rowsBig :
    rowsBig.filterMap Row.customer_unique_id = (List.range 95421).map cidOf := by
  rw [rowsBig, List.filterMap_map]
  have h : (Row.customer_unique_id ∘ fun j =>
      mkRow "o" (some (cidOf j)) (some "sp") "p" (some "t") 1 0 0 0 0)
      = some ∘ cidOf := rfl
  rw [h, List.filterMap_eq_map]

theorem nodup_idsBig : ((List.range 95421).map cidOf).Nodup :=
  (List.nodup_range _).map cidOf_injective

theorem length_rfm_rowsBig : (create_rfm_df rowsBig).length = 95421 := by
  rw [length_create_rfm_df, filterMap_id_rowsBig,
    length_sortKeysAsc_of_nodup nodup_idsBig, List.length_map, List.length_range]

/-- C2: the RFM transform has one row per distinct customer_unique_id (the
output ids are a permutation of the distinct input ids); each row carries
recency equal to the floor of the day difference between the fixed reference
instant and the maximum purchase timestamp of that customer's rows, which is
non-negative whenever every purchase is at or before the reference instant;
and with the code's reference instant a customer whose single order is placed
at 2018-08-01 with price 77 gets recency 33, frequency 1 and monetary 77. -/
theorem create_rfm_df_recency_spec (rows : List Row) :
    List.Perm ((create_rfm_df rows).map RfmRow.customer_unique_id)
      (rows.filterMap Row.customer_unique_id).dedup
    ∧ (∀ x ∈ create_rfm_df rows,
        x.recency = Int.fdiv ((latestDateSec : Int)
            - (groupMaxTs (custGroup rows x.customer_unique_id) : Int)) 86400
        ∧ ((∀ r ∈ rows, r.order_purchase_timestamp ≤ latestDateSec) → 0 ≤ x.recency))
    ∧ (create_rfm_df [rAug]).map (fun x => (x.recency, x.frequency, x.monetary))
        = [(33, 1, 77)] := by
  refine ⟨?_, ?_, by decide⟩
  · rw [create_rfm_df, map_id_addLabelsFrom, rfmBase, List.map_map]
    refine List.Perm.trans (List.Perm.of_eq (list_map_id_of ?_)) (perm_sSort strLeB _)
    intro c _
    rfl
  · intro x hx
    rcases mem_addLabelsFrom hx with ⟨y, hy, hid, hrec, _, _⟩
    rcases List.mem_map.1 hy with ⟨c, _, he⟩
    have hidc : x.customer_unique_id = c := by rw [hid, ← he]
    constructor
    · rw [hrec, ← he, hidc]
    · intro hts
      have hmax : groupMaxTs (custGroup rows c) ≤ latestDateSec :=
        groupMaxTs_le (fun r hr => hts r (List.mem_filter.1 hr).1)
      have h0 : (0 : Int) ≤ (latestDateSec : Int) - (groupMaxTs (custGroup rows c) : Int) := by
        omega
      rw [hrec, ← he]
      exact Int.fdiv_nonneg h0 (by omega)

/-- Witness for C2 at the single August order: its RFM row is `xAug`, whose
recency satisfies the recency formula and is non-negative. -/
theorem create_rfm_df_recency_spec_witness :
    xAug.recency = Int.fdiv ((latestDateSec : Int)
        - (groupMaxTs (custGroup [rAug] xAug.customer_unique_id) : Int)) 86400
    ∧ (0 : Int) ≤ xAug.recency := by
  have h := (create_rfm_df_recency_spec [rAug]).2.1 xAug (by decide)
  exact ⟨h.1, h.2 (by decide)⟩

/-- C3 counterexample: on a collection with 95421 distinct customers (one more
than the fixed `np.arange(95420)` label range), the row at position 95420 of
the RFM table carries no label, so it is false that every row at position `i`
receives the label `"C" ++ i`. -/
theorem rfm_label_not_everywhere :
    ¬ (∀ (i : Nat) (h : i < (create_rfm_df rowsBig).length),
        ((create_rfm_df rowsBig).get ⟨i, h⟩).customer_label_id
          = some ("C" ++ Nat.repr i)) := by
  intro hcl
  have hlen : (create_rfm_df rowsBig).length = 95421 := length_rfm_rowsBig
  have hi : (95420 : Nat) < (create_rfm_df rowsBig).length := by omega
  have hi2 : (95420 : Nat) < (rfmBase rowsBig).length := by
    have h := hi
    rw [create_rfm_df, length_addLabelsFrom] at h
    exact h
  have hc := hcl 95420 hi
  have hg := get_addLabelsFrom 0 (rfmBase rowsBig) 95420 hi hi2
  rw [Nat.zero_add] at hg
  have he : ((create_rfm_df rowsBig).get ⟨95420, hi⟩).customer_label_id
      = ((addLabelsFrom 0 (rfmBase rowsBig)).get ⟨95420, hi⟩).customer_label_id := rfl
  rw [he, hg] at hc
  simp at hc

/-- C3 (amended): the label column is positional over the fixed index range
`np.arange(95420)`, not over the actual table: the row at position `i` gets
label `"C" ++ i` when `i < 95420` and no label otherwise (so with more than
95420 customers some rows carry no label, and the label is not a stable
function of the customer id). -/
theorem rfm_label_positional_fixed_range (rows : List Row) (i : Nat)
    (h : i < (create_rfm_df rows).length) :
    ((create_rfm_df rows).get ⟨i, h⟩).customer_label_id
      = if i < 95420 then some ("C" ++ Nat.repr i) else none := by
  have h2 : i < (rfmBase rows).length := by
    have h3 := h
    rw [create_rfm_df, length_addLabelsFrom] at h3
    exact h3
  have hg := get_addLabelsFrom 0 (rfmBase rows) i h h2
  rw [Nat.zero_add] at hg
  have he : ((create_rfm_df rows).get ⟨i, h⟩).customer_label_id
      = ((addLabelsFrom 0 (rfmBase rows)).get ⟨i, h⟩).customer_label_id := rfl
  rw [he, hg]

/-- Witness for the amended C3 at the single August order: position 0 gets
label C0. -/
theorem rfm_label_positional_fixed_range_witness :
    ((create_rfm_df [rAug]).get ⟨0, by decide⟩).customer_label_id
      = if 0 < 95420 then some ("C" ++ Nat.repr 0) else none :=
  rfm_label_positional_fixed_range [rAug] 0 (by decide)

/-! ### The Daily Orders claims -/

theorem filterMap_some_comp (val : α → V) (l : List α) :
    l.filterMap (fun r => some (val r)) = l.map val := by
  induction l with
  | nil => rfl
  | cons a t ih => simp [List.filterMap_cons, ih]

/-- C4 (amended): for a nonempty filtered collection the Daily Orders table
has exactly one row per calendar day of the inclusive range from the first to
the last purchase date, not only the days with orders: the dates are strictly
increasing, each row counts the distinct order ids and sums the prices of its
day (zero for a day with no orders), every day lying between two purchase
dates gets a row, and every row's day lies between two purchase dates. -/
theorem create_daily_orders_df_spec (rows : List Row) (hne : rows ≠ []) :
    ((create_daily_orders_df rows).map DailyRow.order_date).Pairwise (· < ·)
    ∧ (∀ x ∈ create_daily_orders_df rows,
        x.order_count = numDistinct ((rowsOnDay rows x.order_date).map Row.order_id)
        ∧ x.revenue = ((rowsOnDay rows x.order_date).map Row.price).sum
        ∧ (∃ r1 ∈ rows, pdate r1 ≤ x.order_date) ∧ (∃ r2 ∈ rows, x.order_date ≤ pdate r2))
    ∧ (∀ d : Nat, (∃ r1 ∈ rows, pdate r1 ≤ d) → (∃ r2 ∈ rows, d ≤ pdate r2) →
        ∃ x ∈ create_daily_orders_df rows, x.order_date = d) := by
  cases rows with
  | nil => exact absurd rfl hne
  | cons r rs =>
    have hlomem := exists_pdate_eq_minPDate (List.cons_ne_nil r rs)
    have lhimem := exists_pdate_eq_maxPDate (List.cons_ne_nil r rs)
    have hlohi : minPDate (r :: rs) ≤ maxPDate (r :: rs) :=
      minPDate_le_maxPDate (List.cons_ne_nil r rs)
    refine ⟨?_, ?_, ?_⟩
    · have hmap : (create_daily_orders_df (r :: rs)).map DailyRow.order_date
          = List.range' (minPDate (r :: rs)) (maxPDate (r :: rs) - minPDate (r :: rs) + 1) := by
        simp only [create_daily_orders_df, List.map_map]
        exact list_map_id_of (fun d _ => rfl)
      rw [hmap]
      exact List.pairwise_lt_range' _ _
    · intro x hx
      simp only [create_daily_orders_df] at hx
      rcases List.mem_map.1 hx with ⟨d, hd, he⟩
      rcases List.mem_range'.1 hd with ⟨j, hj, hde⟩
      have hd1 : minPDate (r :: rs) ≤ d := by omega
      have hd2 : d ≤ maxPDate (r :: rs) := by omega
      refine ⟨by rw [← he], by rw [← he], ?_, ?_⟩
      · rcases hlomem with ⟨r1, hr1, he1⟩
        exact ⟨r1, hr1, by rw [← he]; simpa [he1] using hd1⟩
      · rcases lhimem with ⟨r2, hr2, he2⟩
        exact ⟨r2, hr2, by rw [← he]; simpa [he2] using hd2⟩
    · intro d h1 h2
      rcases h1 with ⟨r1, hr1, hd1⟩
      rcases h2 with ⟨r2, hr2, hd2⟩
      have hb1 : minPDate (r :: rs) ≤ d := le_trans (minPDate_le hr1) hd1
      have hb2 : d ≤ maxPDate (r :: rs) := le_trans hd2 (le_maxPDate hr2)
      have hdmem : d ∈ List.range' (minPDate (r :: rs))
          (maxPDate (r :: rs) - minPDate (r :: rs) + 1) := by
        refine List.mem_range'.2 ⟨d - minPDate (r :: rs), by omega, by omega⟩
      refine ⟨{ order_date := d,
                order_count := numDistinct ((rowsOnDay (r :: rs) d).map Row.order_id),
                revenue := ((rowsOnDay (r :: rs) d).map Row.price).sum }, ?_, rfl⟩
      simp only [create_daily_orders_df]
      exact List.mem_map.2 ⟨d, hdmem, rfl⟩

/-- Witness for the amended C4 at a one-row collection on day 0. -/
theorem create_daily_orders_df_spec_witness :
    ∃ x ∈ create_daily_orders_df [w1], x.order_date = 0 :=
  (create_daily_orders_df_spec [w1] (by decide)).2.2 0 ⟨w1, by decide, by decide⟩
    ⟨w1, by decide, by decide⟩

/-- C4 counterexample: with orders only on day 0 and day 2, the table has a
third row, for the orderless day 1, with zero aggregates: the table does not
consist of exactly the days present in the collection. -/
theorem create_daily_orders_df_gap_day :
    (create_daily_orders_df [rGapA, rGapB]).map
        (fun x => (x.order_date, x.order_count, x.revenue))
      = [(0, 1, 10), (1, 0, 0), (2, 1, 20)]
    ∧ (∀ r ∈ [rGapA, rGapB], pdate r ≠ 1) :=
  ⟨by decide, by decide⟩

/-- C5 (amended): the revenue values of the Daily Orders table always sum to
the total price of the collection, and the transform is deterministic; the
order_count values sum to the number of distinct order ids provided rows
sharing an order_id share a purchase date (an order counted on two days would
be counted twice). -/
theorem daily_orders_totals (rows : List Row) :
    ((create_daily_orders_df rows).map DailyRow.revenue).sum = (rows.map Row.price).sum
    ∧ create_daily_orders_df rows = create_daily_orders_df rows
    ∧ ((∀ r1 ∈ rows, ∀ r2 ∈ rows, r1.order_id = r2.order_id → pdate r1 = pdate r2) →
        ((create_daily_orders_df rows).map DailyRow.order_count).sum
          = numDistinct (rows.map Row.order_id)) := by
  cases rows with
  | nil =>
    exact ⟨by simp [create_daily_orders_df], rfl,
      fun _ => by simp [create_daily_orders_df, numDistinct]⟩
  | cons r rs =>
    have hcov : ∀ x ∈ r :: rs, pdate x ∈ List.range' (minPDate (r :: rs))
        (maxPDate (r :: rs) - minPDate (r :: rs) + 1) := by
      intro x hx
      have h1 := minPDate_le hx
      have h2 := le_maxPDate hx
      exact List.mem_range'.2 ⟨pdate x - minPDate (r :: rs), by omega, by omega⟩
    have hnd : (List.range' (minPDate (r :: rs))
        (maxPDate (r :: rs) - minPDate (r :: rs) + 1)).Nodup := List.nodup_range' _ _
    refine ⟨?_, rfl, ?_⟩
    · have hsum := sum_map_filter_partition pdate Row.price
        (List.range' (minPDate (r :: rs)) (maxPDate (r :: rs) - minPDate (r :: rs) + 1))
        (r :: rs) hnd hcov
      calc ((create_daily_orders_df (r :: rs)).map DailyRow.revenue).sum
          = ((List.range' (minPDate (r :: rs))
              (maxPDate (r :: rs) - minPDate (r :: rs) + 1)).map fun d =>
                (((r :: rs).filter fun r' => decide (pdate r' = d)).map Row.price).sum).sum := by
            simp only [create_daily_orders_df, List.map_map]
            exact congrArg List.sum (List.map_congr_left (fun d _ => rfl))
        _ = ((r :: rs).map Row.price).sum := hsum
    · intro hdet
      have hsum := sum_numDistinct_filterMap pdate (fun r' => some r'.order_id)
        (List.range' (minPDate (r :: rs)) (maxPDate (r :: rs) - minPDate (r :: rs) + 1))
        (r :: rs) hnd hcov
        (fun r1 hr1 r2 hr2 v h1 h2 => hdet r1 hr1 r2 hr2
          ((Option.some.inj h1).trans (Option.some.inj h2).symm))
      rw [filterMap_some_comp] at hsum
      have hsum2 : ((List.range' (minPDate (r :: rs))
          (maxPDate (r :: rs) - minPDate (r :: rs) + 1)).map fun d =>
            numDistinct (((r :: rs).filter fun r' => decide (pdate r' = d)).map
              Row.order_id)).sum
          = numDistinct ((r :: rs).map Row.order_id) := by
        rw [← hsum]
        refine congrArg List.sum (List.map_congr_left ?_)
        intro d _
        rw [filterMap_some_comp]
      calc ((create_daily_orders_df (r :: rs)).map DailyRow.order_count).sum
          = ((List.range' (minPDate (r :: rs))
              (maxPDate (r :: rs) - minPDate (r :: rs) + 1)).map fun d =>
                numDistinct (((r :: rs).filter fun r' => decide (pdate r' = d)).map
                  Row.order_id)).sum := by
            simp only [create_daily_orders_df, List.map_map]
            exact congrArg List.sum (List.map_congr_left (fun d _ => rfl))
        _ = numDistinct ((r :: rs).map Row.order_id) := hsum2

/-- Witness for the amended C5 at a one-row collection. -/
theorem daily_orders_totals_witness :
    ((create_daily_orders_df [w1]).map DailyRow.order_count).sum
      = numDistinct ([w1].map Row.order_id) :=
  (daily_orders_totals [w1]).2.2 (by decide)

/-- C5 counterexample: two rows of one order on two different days are counted
once per day: the order_count values sum to 2 although the collection has one
distinct order id. -/
theorem daily_orders_totals_split_order :
    ((create_daily_orders_df [rSplitA, rSplitB]).map DailyRow.order_count).sum = 2
    ∧ numDistinct ([rSplitA, rSplitB].map Row.order_id) = 1 :=
  ⟨by decide, by decide⟩

/-! ### The ranking, city-sum and RFM-positivity claims -/

/-- C6 (corrected): both ranked tables are sorted descending by their count
column (ties allowed), and re-running either aggregation on the same input
yields the identical table (the computation is a pure function of its input);
but groups with equal counts are NOT tie-broken by first-encounter order: the
group stage already lists groups by ascending key and the descending sort
reverses an ascending argsort, so the counterexample below exhibits tied
groups out of encounter order. -/
theorem ranked_tables_order (rows : List Row) :
    (create_total_customer_by_city_df rows).Pairwise (fun x y =>
      y.total_customer ≤ x.total_customer)
    ∧ (create_product_category_sales_df rows).Pairwise (fun x y =>
      y.total_order ≤ x.total_order)
    ∧ create_total_customer_by_city_df rows = create_total_customer_by_city_df rows
    ∧ create_product_category_sales_df rows = create_product_category_sales_df rows := by
  refine ⟨?_, ?_, rfl, rfl⟩
  · exact sorted_sortValuesDesc CityRow.total_customer _
  · exact sorted_sortValuesDesc CategoryRow.total_order _

/-- C6 counterexample: three cities encountered in the order b, a, c, each
with one customer, tie on total_customer; the table lists them as c, b, a,
not in the first-encounter order b, a, c, so ties are not broken by
group-encounter order. -/
theorem ranked_tables_not_encounter_order :
    (∀ x ∈ create_total_customer_by_city_df [rTieB, rTieA, rTieC], x.total_customer = 1)
    ∧ encounterKeys ([rTieB, rTieA, rTieC].filterMap Row.customer_city) = ["b", "a", "c"]
    ∧ (create_total_customer_by_city_df [rTieB, rTieA, rTieC]).map CityRow.customer_city
        = ["c", "b", "a"]
    ∧ (create_total_customer_by_city_df [rTieB, rTieA, rTieC]).map CityRow.customer_city
        ≠ encounterKeys ([rTieB, rTieA, rTieC].filterMap Row.customer_city) :=
  ⟨by decide, by decide, by decide, by decide⟩

/-- C7: if every row carries a city, and rows of one customer always carry
the same city, the total_customer values of the Customer-by-City table sum to
the number of distinct customer ids of the collection. -/
theorem city_totals_sum (rows : List Row)
    (hcity : ∀ r ∈ rows, r.customer_city.isSome)
    (hone : ∀ r1 ∈ rows, ∀ r2 ∈ rows, r1.customer_unique_id.isSome →
      r1.customer_unique_id = r2.customer_unique_id →
      r1.customer_city = r2.customer_city) :
    ((create_total_customer_by_city_df rows).map CityRow.total_customer).sum
      = numDistinct (rows.filterMap Row.customer_unique_id) := by
  have hperm := (perm_sortValuesDesc CityRow.total_customer
    ((sortKeysAsc (rows.filterMap Row.customer_city)).map fun c =>
      ({ customer_city := c,
         geolocation_lat := meanRat ((cityGroup rows c).map Row.geolocation_lat),
         geolocation_lng := meanRat ((cityGroup rows c).map Row.geolocation_lng),
         total_customer :=
           numDistinct ((cityGroup rows c).filterMap Row.customer_unique_id) } :
        CityRow))).map CityRow.total_customer
  have hsum := sum_numDistinct_filterMap (fun r : Row => r.customer_city.getD "")
    Row.customer_unique_id (sortKeysAsc (rows.filterMap Row.customer_city)) rows
    (nodup_sortKeysAsc _)
    (by
      intro r hr
      rcases Option.isSome_iff_exists.1 (hcity r hr) with ⟨v, hv⟩
      show r.customer_city.getD "" ∈ sortKeysAsc (rows.filterMap Row.customer_city)
      have hgd : r.customer_city.getD "" = v := by rw [hv]; rfl
      rw [hgd]
      exact mem_sortKeysAsc.2 (List.mem_filterMap.2 ⟨r, hr, hv⟩))
    (by
      intro r1 hr1 r2 hr2 v h1 h2
      show r1.customer_city.getD "" = r2.customer_city.getD ""
      rw [hone r1 hr1 r2 hr2 (by rw [h1]; rfl) (h1.trans h2.symm)])
  have hgroups : ∀ c ∈ sortKeysAsc (rows.filterMap Row.customer_city),
      (rows.filter fun r => decide (r.customer_city.getD "" = c)) = cityGroup rows c := by
    intro c _
    rw [cityGroup]
    refine List.filter_congr ?_
    intro r hr
    rcases Option.isSome_iff_exists.1 (hcity r hr) with ⟨v, hv⟩
    simp [hv]
  calc ((create_total_customer_by_city_df rows).map CityRow.total_customer).sum
      = (((sortKeysAsc (rows.filterMap Row.customer_city)).map fun c =>
          ({ customer_city := c,
             geolocation_lat := meanRat ((cityGroup rows c).map Row.geolocation_lat),
             geolocation_lng := meanRat ((cityGroup rows c).map Row.geolocation_lng),
             total_customer :=
               numDistinct ((cityGroup rows c).filterMap Row.customer_unique_id) } :
            CityRow)).map CityRow.total_customer).sum := hperm.sum_eq
    _ = ((sortKeysAsc (rows.filterMap Row.customer_city)).map fun c =>
          numDistinct ((cityGroup rows c).filterMap Row.customer_unique_id)).sum := by
        rw [List.map_map]
        exact congrArg List.sum (List.map_congr_left (fun c _ => rfl))
    _ = ((sortKeysAsc (rows.filterMap Row.customer_city)).map fun c =>
          numDistinct ((rows.filter fun r =>
            decide (r.customer_city.getD "" = c)).filterMap Row.customer_unique_id)).sum := by
        refine congrArg List.sum (List.map_congr_left ?_)
        intro c hc
        rw [hgroups c hc]
    _ = numDistinct (rows.filterMap Row.customer_unique_id) := hsum

/-- Witness for C7 at a one-row collection. -/
theorem city_totals_sum_witness :
    ((create_total_customer_by_city_df [w1]).map CityRow.total_customer).sum
      = numDistinct ([w1].filterMap Row.customer_unique_id) :=
  city_totals_sum [w1] (by decide) (by decide)

/-- C8 (amended): every row of the RFM table has frequency at least 1 (its
customer has at least one row in the collection); and whenever every price of
the collection is positive, its monetary value is positive as well (with a
zero or negative price, monetary can fail to be positive). -/
theorem rfm_frequency_monetary (rows : List Row) :
    ∀ x ∈ create_rfm_df rows,
      1 ≤ x.frequency ∧ ((∀ r ∈ rows, 0 < r.price) → 0 < x.monetary) := by
  intro x hx
  rcases mem_addLabelsFrom hx with ⟨y, hy, _, _, hfreq, hmon⟩
  rcases List.mem_map.1 hy with ⟨c, hc, he⟩
  have hcmem : c ∈ rows.filterMap Row.customer_unique_id := mem_sortKeysAsc.1 hc
  rcases List.mem_filterMap.1 hcmem with ⟨r, hr, hkey⟩
  have hrg : r ∈ custGroup rows c := List.mem_filter.2 ⟨hr, by simp [hkey]⟩
  have hgne : custGroup rows c ≠ [] := List.ne_nil_of_mem hrg
  constructor
  · rw [hfreq, ← he]
    exact numDistinct_pos_of_ne_nil (by simpa using hgne)
  · intro hpos
    rw [hmon, ← he]
    refine List.sum_pos _ ?_ (by simpa using hgne)
    intro p hp
    rcases List.mem_map.1 hp with ⟨r2, hr2, he2⟩
    exact he2 ▸ hpos r2 (List.mem_filter.1 hr2).1

/-- Witness for the amended C8 at the single August order. -/
theorem rfm_frequency_monetary_witness : 1 ≤ xAug.frequency ∧ 0 < xAug.monetary := by
  have h := rfm_frequency_monetary [rAug] xAug (by decide)
  exact ⟨h.1, h.2 (by decide)⟩

/-- C8 counterexample: a single order of price 0 yields monetary 0, so the
monetary column is not positive for every row collection. -/
theorem rfm_monetary_not_positive :
    ¬ (∀ x ∈ create_rfm_df [rZero], 0 < x.monetary) := by decide

end Dashboard
